import Mathlib

/-!
Verification development for the DynamicDo reminder backend.

The definitions below are a shallow embedding of the reminder engine
(`app/services/reminder_service.py`) and the ranking client
(`app/services/ai_client.py`).  The Mongo collection is modelled as a list of
`Reminder` records; bson `ObjectId` parsing is modelled by a 24-hex-digit
validity check together with lower-case normalisation (the string rendering of
a parsed ObjectId); `datetime.utcnow()` is threaded as an explicit natural
number clock; the OpenAI call of `rank_tasks` is an explicit parameter holding
either the parsed item list of a successful response or the exception of a
failed one.
-/

namespace DynamicDo

/-- Field value of a JSON-style document: a string, or an explicit null
(`none`). -/
abbrev Val := Option String

/-- A JSON-style object (a Python dict), as an association list from keys to
values.  A key that is absent from the list models a key absent from the
dict; a key mapped to `none` models an explicit null. -/
abbrev Doc := List (String × Val)

/-- A stored reminder document (the dict built by
`ReminderService.create_reminder` and mutated by the other operations).
`oid` is the store-assigned identity (`_id`, rendered as a string). -/
structure Reminder where
  oid : String
  user_id : String
  title : String
  notes : Val
  url : Val
  date : Val
  time : Val
  priority : Val
  list : Val
  tag : Val
  completed : Bool
  rank : Option ℚ
  ai_priority : Val
  created_at : Nat
  updated_at : Nat
deriving DecidableEq

/-- Hexadecimal digit check used by the ObjectId validity model. -/
def isHexCh (c : Char) : Bool :=
  c.isDigit || (('a' : Char) ≤ c && c ≤ ('f' : Char)) || (('A' : Char) ≤ c && c ≤ ('F' : Char))

/-- Validity of a candidate store id string: bson `ObjectId(s)` succeeds
exactly when `s` is a 24-character hexadecimal string. -/
def isValidOid (s : String) : Bool :=
  s.length == 24 && s.data.all isHexCh

/-- The string rendering of a parsed ObjectId: `str(ObjectId(s))` is the
lower-case form of the accepted hexadecimal string `s` (character-wise
lower-casing, as `str.lower` does on ASCII hex digits). -/
def normOid (s : String) : String :=
  ⟨s.data.map Char.toLower⟩

/-- The valid/invalid split loop shared by `delete_reminders` and
`toggle_reminder_completion`: candidate ids are partitioned into parsed
(normalised) valid ids and syntactically invalid ids, each side keeping its
original order. -/
def parseIds : List String → List String × List String
  | [] => ([], [])
  | s :: rest =>
    let p := parseIds rest
    if isValidOid s then (normOid s :: p.1, p.2) else (p.1, s :: p.2)

/-- Python exceptions raised by the service layer: `ValueError` (the
validation error of the spec) and `AttributeError` (a non-validation type
slip). -/
inductive PyErr where
  | valueError (msg : String)
  | attributeError (msg : String)
deriving DecidableEq

/-- Discriminator: is this outcome a raised `ValueError`? -/
def isValueErr {α : Type} : Except PyErr α → Bool
  | .error (.valueError _) => true
  | _ => false

/-- Result triple of the capped batch operations (`deleted`/`updated` is the
`found` field). -/
structure BatchResult where
  found : List String
  not_found : List String
  ignored : List String
deriving DecidableEq

/-- The single owner-scoped existence query of the batch operations:
`find({"_id": {"$in": valids}, "user_id": user_id})`. -/
def ownedQuery (store : List Reminder) (u : String) (valids : List String) : List Reminder :=
  store.filter fun r => decide (r.oid ∈ valids) && decide (r.user_id = u)

/-- `existing`: the owner-scoped query over the parsed first-10 input ids. -/
def existingOf (store : List Reminder) (u : String) (data : List String) : List Reminder :=
  ownedQuery store u (parseIds (data.take 10)).1

/-- `found_ids`: the string renderings of the ids returned by the query. -/
def foundIdsOf (store : List Reminder) (u : String) (data : List String) : List String :=
  (existingOf store u data).map (·.oid)

/-- `not_found`: the first-10 ids that do not occur among the found ids. -/
def notFoundOf (store : List Reminder) (u : String) (data : List String) : List String :=
  (data.take 10).filter fun rid => !(decide (rid ∈ foundIdsOf store u data))

/-- The result triple composed by both batch operations: found ids, then
`not_found ++ invalid_ids`, then the input tail beyond position 10. -/
def batchResultOf (store : List Reminder) (u : String) (data : List String) : BatchResult :=
  { found := foundIdsOf store u data,
    not_found := notFoundOf store u data ++ (parseIds (data.take 10)).2,
    ignored := data.drop 10 }

/-- `ReminderService.delete_reminders`: cap at 10, split valid/invalid, one
owner-scoped query, one batch delete over exactly the found ids (the delete
criterion is the found `_id` set alone, with no user filter). -/
def delete_reminders (store : List Reminder) (u : String) (data : List String) :
    Except PyErr (BatchResult × List Reminder) :=
  if data = [] then .error (.valueError "No Reminder IDs provided for deletion")
  else
    .ok (batchResultOf store u data,
      store.filter fun r => !(decide (r.oid ∈ foundIdsOf store u data)))

/-- The `$set` document of `toggle_reminder_completion`: completion flag and
refreshed `updated_at`. -/
def applyToggle (c : Bool) (t : Nat) (r : Reminder) : Reminder :=
  { r with completed := c, updated_at := t }

/-- The store state after `toggle_reminder_completion`: `update_many` over
exactly the found `_id` set (no user filter), issued only when the query
found anything. -/
def toggleStoreOf (store : List Reminder) (u : String) (data : List String)
    (c : Bool) (t : Nat) : List Reminder :=
  if existingOf store u data = [] then store
  else store.map fun r =>
    if decide (r.oid ∈ foundIdsOf store u data) then applyToggle c t r else r

/-- `ReminderService.toggle_reminder_completion`: same capped composition as
`delete_reminders`, with a batch completion update instead of a delete. -/
def toggle_reminder_completion (store : List Reminder) (u : String) (data : List String)
    (c : Bool) (t : Nat) : Except PyErr (BatchResult × List Reminder) :=
  if data = [] then .error (.valueError "No Reminder IDs provided")
  else .ok (batchResultOf store u data, toggleStoreOf store u data c t)

/-- `ReminderService.create_reminder`.  `data.get("title", "").strip()`:
an absent key yields `""`, an explicit null raises `AttributeError`
(`None` has no `strip`), a string is trimmed.  On success the new record is
persisted with `completed := false` and matching timestamps; the second
component is the store after the call (unchanged when an error is raised,
since the raise precedes the insert). -/
def create_reminder (store : List Reminder) (u : String) (data : Doc) (t : Nat)
    (newId : String) : Except PyErr Reminder × List Reminder :=
  let titleRes : Except PyErr String :=
    match List.lookup "title" data with
    | none => .ok ""
    | some none => .error (.attributeError "NoneType object has no attribute strip")
    | some (some s) => .ok s.trim
  match titleRes with
  | .error e => (.error e, store)
  | .ok title =>
    if title = "" then (.error (.valueError "Reminder title is required"), store)
    else
      let r : Reminder :=
        { oid := newId, user_id := u, title := title,
          notes := (List.lookup "notes" data).join,
          url := (List.lookup "url" data).join,
          date := (List.lookup "date" data).join,
          time := (List.lookup "time" data).join,
          priority := (List.lookup "priority" data).join,
          list := (List.lookup "list" data).join,
          tag := (List.lookup "tag" data).join,
          completed := false, rank := none, ai_priority := none,
          created_at := t, updated_at := t }
      (.ok r, store ++ [r])

/-- The sort key of `list_reminders`:
`(r.get("completed", False), -r.get("rank", -1))`. -/
def remKey (r : Reminder) : Bool × ℚ :=
  (r.completed, -(r.rank.getD (-1)))

/-- The list ordering of `list_reminders`: Python tuple comparison of the
sort keys, i.e. the lexicographic order on `Bool × ℚ`. -/
def remLe (a b : Reminder) : Prop :=
  toLex (remKey a) ≤ toLex (remKey b)

instance : DecidableRel remLe :=
  fun a b => inferInstanceAs (Decidable (toLex (remKey a) ≤ toLex (remKey b)))

instance : IsTotal Reminder remLe :=
  ⟨fun a b => le_total (toLex (remKey a)) (toLex (remKey b))⟩

instance : IsTrans Reminder remLe :=
  ⟨fun _ _ _ h1 h2 => le_trans h1 h2⟩

/-- `ReminderService.list_reminders`: all reminders of the owner, stably
sorted by `remKey` (Python `list.sort` is a stable sort). -/
def list_reminders (store : List Reminder) (u : String) : List Reminder :=
  List.insertionSort remLe (store.filter fun r => decide (r.user_id = u))

/-- The update document built by the allow-list loop of
`ReminderService.update_reminder`.  The outer `Option` of every field is key
presence in the patch; for the non-title fields the inner `Val` is stored
verbatim (explicit null included). -/
structure UpdDoc where
  titleF : Option String
  notesF : Option Val
  urlF : Option Val
  dateF : Option Val
  timeF : Option Val
  priorityF : Option Val
  listF : Option Val
  tagF : Option Val
deriving DecidableEq

/-- The allow-list of patchable fields, in the order the loop visits them. -/
def allowedFields : List String :=
  ["title", "notes", "url", "date", "time", "priority", "list", "tag"]

/-- Title handling of the update loop:
`data["title"].strip() if data["title"] else ""`, then the emptiness check.
A null or empty title and a whitespace-only title all trim to `""`. -/
def titleField (data : Doc) : Except PyErr (Option String) :=
  match List.lookup "title" data with
  | none => .ok none
  | some v =>
    if (v.getD "").trim = "" then .error (.valueError "Reminder title cannot be empty")
    else .ok (some ((v.getD "").trim))

/-- The allow-list loop of `update_reminder`: collect the present allow-listed
fields, validating the title. -/
def buildUpdate (data : Doc) : Except PyErr UpdDoc :=
  match titleField data with
  | .error e => .error e
  | .ok tf =>
    .ok { titleF := tf,
          notesF := List.lookup "notes" data,
          urlF := List.lookup "url" data,
          dateF := List.lookup "date" data,
          timeF := List.lookup "time" data,
          priorityF := List.lookup "priority" data,
          listF := List.lookup "list" data,
          tagF := List.lookup "tag" data }

/-- `update_fields` is empty: no allow-listed key was present in the patch. -/
def UpdDoc.isEmptyUpd (d : UpdDoc) : Bool :=
  d.titleF.isNone && d.notesF.isNone && d.urlF.isNone && d.dateF.isNone &&
    d.timeF.isNone && d.priorityF.isNone && d.listF.isNone && d.tagF.isNone

/-- The `$set` application of `update_reminder`: every collected field is
overwritten, `updated_at` is always refreshed, everything else is kept. -/
def applyUpd (d : UpdDoc) (t : Nat) (r : Reminder) : Reminder :=
  { r with
    title := d.titleF.getD r.title,
    notes := d.notesF.getD r.notes,
    url := d.urlF.getD r.url,
    date := d.dateF.getD r.date,
    time := d.timeF.getD r.time,
    priority := d.priorityF.getD r.priority,
    list := d.listF.getD r.list,
    tag := d.tagF.getD r.tag,
    updated_at := t }

/-- Replace the first element satisfying `p` (the single document touched by
`find_one_and_update` / `update_one`). -/
def updateFirst (p : Reminder → Bool) (f : Reminder → Reminder) :
    List Reminder → List Reminder
  | [] => []
  | r :: rest => if p r then f r :: rest else r :: updateFirst p f rest

/-- The match criterion of the single-document operations:
`{"_id": obj_id, "user_id": user_id}`. -/
def docMatch (u : String) (oid : String) (r : Reminder) : Bool :=
  decide (r.oid = oid) && decide (r.user_id = u)

/-- `ReminderService.update_reminder`: id parse, allow-list collection with
title validation, empty-update rejection, then `find_one_and_update` scoped
to `(id, owner)` returning the post-update document. -/
def update_reminder (store : List Reminder) (u : String) (rid : String) (data : Doc)
    (t : Nat) : Except PyErr (Reminder × List Reminder) :=
  if isValidOid rid then
    match buildUpdate data with
    | .error e => .error e
    | .ok d =>
      if d.isEmptyUpd then .error (.valueError "No valid fields to update")
      else
        match store.find? (docMatch u (normOid rid)) with
        | none => .error (.valueError "Reminder not found or does not belong to user")
        | some r0 =>
          .ok (applyUpd d t r0, updateFirst (docMatch u (normOid rid)) (fun _ => applyUpd d t r0) store)
  else .error (.valueError "Invalid reminder ID")

/-- One parsed item of the Ranking Provider response (`{"id": ..., "rank":
..., "priority": ..., "reasoning": ...}`); `none` models an absent key. -/
structure AiItem where
  id : Option String
  rank : Option ℚ
  priority : Option String
  reasoning : Option String
deriving DecidableEq

/-- One entry of the `rank_tasks` output: all original task fields (the
embedded `Reminder`), overlaid with the merged `rank` and `priority`, plus
the optional `reasoning` key. -/
structure RankedOut where
  task : Reminder
  rank : ℚ
  priority : String
  reasoning : Option String
deriving DecidableEq

/-- The `ai_map` dict lookup of `rank_tasks`: items without an `id` key are
skipped, a later duplicate id overrides an earlier one. -/
def aiFind (items : List AiItem) (k : String) : Option AiItem :=
  items.reverse.find? fun it => decide (it.id = some k)

/-- The merge step of `rank_tasks`: a task whose id is in the lookup gets the
provider rank (default `0.5`) and priority (default `"medium"`), plus the
provider reasoning when the debug flag is set and the key was supplied; a
task absent from the lookup gets rank `0.5` and priority `"medium"`. -/
def mergeTask (items : List AiItem) (debug : Bool) (t : Reminder) : RankedOut :=
  match aiFind items t.oid with
  | some ai =>
    { task := t, rank := ai.rank.getD (1/2), priority := ai.priority.getD "medium",
      reasoning := if debug then ai.reasoning else none }
  | none => { task := t, rank := 1/2, priority := "medium", reasoning := none }

/-- The final sort of `rank_tasks`: stable, by rank descending
(`sort(key=..., reverse=True)`). -/
def rankDescLe (a b : RankedOut) : Prop :=
  b.rank ≤ a.rank

instance : DecidableRel rankDescLe :=
  fun a b => inferInstanceAs (Decidable (b.rank ≤ a.rank))

instance : IsTotal RankedOut rankDescLe :=
  ⟨fun a b => le_total b.rank a.rank⟩

instance : IsTrans RankedOut rankDescLe :=
  ⟨fun _ _ _ h1 h2 => le_trans h2 h1⟩

/-- `AiClient.rank_tasks`.  `outcome` is the provider call: `Except.ok items`
is the item list parsed out of a successful response, `Except.error` is any
exception in the guarded block (network error, empty content, parse error);
the handler substitutes the degraded fallback list, with reasoning
`"AI ranking unavailable"` on each item when debug was requested. -/
def rank_tasks (tasks : List Reminder) (outcome : Except Unit (List AiItem))
    (debug : Bool) : List RankedOut :=
  if tasks = [] then []
  else
    match outcome with
    | .ok items => List.insertionSort rankDescLe (tasks.map (mergeTask items debug))
    | .error _ =>
      tasks.map fun t =>
        { task := t, rank := 1/2, priority := "medium",
          reasoning := if debug then some "AI ranking unavailable" else none }

/-- One input item of `save_ranking_results` (`reminder.get("id")`,
`reminder.get("rank")`, `reminder.get("ai_priority")` on a plain dict). -/
structure RankedItem where
  id : Option String
  rank : Option ℚ
  ai_priority : Val
deriving DecidableEq

/-- The dict fields `save_ranking_results` reads off one `rank_tasks` output
entry: the task id, the merged rank, and the original (stale) `ai_priority`
field of the task — the merge writes `priority`, not `ai_priority`. -/
def toRankedItem (o : RankedOut) : RankedItem :=
  { id := some o.task.oid, rank := some o.rank, ai_priority := o.task.ai_priority }

/-- One recorded per-item failure of `save_ranking_results`, keyed by the
item's id. -/
structure SaveErr where
  id : Option String
  errMsg : String
deriving DecidableEq

/-- The result of `save_ranking_results`: the count of updates that modified
a record, and the per-item error list. -/
structure SaveResult where
  updated : Nat
  errors : List SaveErr
deriving DecidableEq

/-- The `$set` document of the per-item update of `save_ranking_results`:
rank and `ai_priority` verbatim, `updated_at` refreshed. -/
def applyRank (it : RankedItem) (t : Nat) (r : Reminder) : Reminder :=
  { r with rank := it.rank, ai_priority := it.ai_priority, updated_at := t }

/-- The item loop of `save_ranking_results`.  An item with a falsy id or a
null rank is skipped.  `ObjectId(reminder_id)` raising, or the store update
raising (modelled by the `failOn` oracle), appends to the error list and
moves on.  Otherwise one `update_one` scoped to `(id, owner)` runs; the
update counter grows exactly when the update modified the matched record.
The clock grows by one per item (each update calls `utcnow()` afresh). -/
def save_step (u : String) (failOn : String → Bool) :
    List RankedItem → Nat → List Reminder → Nat → List SaveErr → SaveResult × List Reminder
  | [], _, s, cnt, errs => ({ updated := cnt, errors := errs }, s)
  | it :: rest, t, s, cnt, errs =>
    if it.id.getD "" = "" || it.rank.isNone then
      save_step u failOn rest (t + 1) s cnt errs
    else
      if isValidOid (it.id.getD "") then
        if failOn (it.id.getD "") then
          save_step u failOn rest (t + 1) s cnt (errs ++ [{ id := it.id, errMsg := "store update failed" }])
        else
          match s.find? (docMatch u (normOid (it.id.getD ""))) with
          | none => save_step u failOn rest (t + 1) s cnt errs
          | some r0 =>
            save_step u failOn rest (t + 1)
              (updateFirst (docMatch u (normOid (it.id.getD ""))) (fun _ => applyRank it t r0) s)
              (if applyRank it t r0 = r0 then cnt else cnt + 1) errs
      else
        save_step u failOn rest (t + 1) s cnt (errs ++ [{ id := it.id, errMsg := "invalid id" }])

/-- `ReminderService.save_ranking_results`: rejects an empty ranked list,
otherwise runs the item loop over the whole list. -/
def save_ranking_results (store : List Reminder) (u : String) (ranked : List RankedItem)
    (t : Nat) (failOn : String → Bool) : Except PyErr (SaveResult × List Reminder) :=
  if ranked = [] then .error (.valueError "No ranked reminders to save")
  else .ok (save_step u failOn ranked t store 0 [])

/-- The persisted-rank data-model invariant: whenever a stored reminder has a
rank, it lies in `[0, 1]`. -/
def RankInv (s : List Reminder) : Prop :=
  ∀ r ∈ s, ∀ q ∈ r.rank, 0 ≤ q ∧ q ≤ 1

/-! ### Helper lemmas about the embedded operations -/

theorem parseIds_fst_of_norm {l : List String}
    (hnorm : ∀ s ∈ l, isValidOid s = true → normOid s = s) :
    (parseIds l).1 = l.filter isValidOid := by
  induction l with
  | nil => rfl
  | cons s rest ih =>
    have hrest := ih fun x hx => hnorm x (List.mem_cons_of_mem _ hx)
    by_cases hs : isValidOid s = true
    · simp [parseIds, hs, hrest, hnorm s (List.mem_cons_self s rest) hs, List.filter_cons]
    · simp [parseIds, hs, hrest, List.filter_cons]

theorem parseIds_snd (l : List String) :
    (parseIds l).2 = l.filter fun s => !(isValidOid s) := by
  induction l with
  | nil => rfl
  | cons s rest ih =>
    by_cases hs : isValidOid s = true
    · simp [parseIds, hs, ih, List.filter_cons]
    · simp [parseIds, hs, ih, List.filter_cons]

theorem mem_ownedQuery {store : List Reminder} {u : String} {v : List String}
    {r : Reminder} :
    r ∈ ownedQuery store u v ↔ r ∈ store ∧ r.oid ∈ v ∧ r.user_id = u := by
  simp [ownedQuery, List.mem_filter]

theorem foundIdsOf_nodup {store : List Reminder} {u : String} {data : List String}
    (hso : (store.map Reminder.oid).Nodup) :
    (foundIdsOf store u data).Nodup := by
  have h1 : List.Sublist (existingOf store u data) store := List.filter_sublist _
  exact hso.sublist (h1.map Reminder.oid)

theorem mem_foundIdsOf {store : List Reminder} {u : String} {data : List String}
    {x : String} :
    x ∈ foundIdsOf store u data ↔
      ∃ r ∈ store, r.oid = x ∧ x ∈ (parseIds (data.take 10)).1 ∧ r.user_id = u := by
  constructor
  · intro hx
    rcases List.mem_map.1 hx with ⟨r, hr, hrx⟩
    rcases mem_ownedQuery.1 hr with ⟨hrs, hro, hru⟩
    exact ⟨r, hrs, hrx, hrx ▸ hro, hru⟩
  · rintro ⟨r, hrs, hrx, hro, hru⟩
    exact List.mem_map.2 ⟨r, mem_ownedQuery.2 ⟨hrs, hrx ▸ hro, hru⟩, hrx⟩

theorem mem_updateFirst {p : Reminder → Bool} {f : Reminder → Reminder}
    {l : List Reminder} {x : Reminder} (hx : x ∈ updateFirst p f l) :
    x ∈ l ∨ ∃ y ∈ l, p y = true ∧ x = f y := by
  induction l with
  | nil => simp [updateFirst] at hx
  | cons r rest ih =>
    by_cases hp : p r = true
    · simp only [updateFirst, if_pos hp, List.mem_cons] at hx
      rcases hx with h | h
      · exact Or.inr ⟨r, List.mem_cons_self r rest, hp, h⟩
      · exact Or.inl (List.mem_cons_of_mem _ h)
    · simp only [updateFirst, if_neg hp, List.mem_cons] at hx
      rcases hx with h | h
      · exact Or.inl (h ▸ List.mem_cons_self r rest)
      · rcases ih h with h2 | ⟨y, hy, hpy, hxy⟩
        · exact Or.inl (List.mem_cons_of_mem _ h2)
        · exact Or.inr ⟨y, List.mem_cons_of_mem _ hy, hpy, hxy⟩

theorem updateFirst_filter_eq {p w : Reminder → Bool} {f : Reminder → Reminder}
    (hpw : ∀ y, p y = true → w y = false)
    (hfw : ∀ y, p y = true → w (f y) = false) :
    ∀ l : List Reminder, (updateFirst p f l).filter w = l.filter w := by
  intro l
  induction l with
  | nil => rfl
  | cons r rest ih =>
    by_cases hp : p r = true
    · simp [updateFirst, if_pos hp, List.filter_cons, hpw r hp, hfw r hp]
    · simp only [updateFirst, if_neg hp, List.filter_cons, ih]

theorem updateFirst_map_pair {p : Reminder → Bool} {f : Reminder → Reminder}
    (hf : ∀ y, p y = true → ((f y).oid, (f y).user_id) = (y.oid, y.user_id)) :
    ∀ l : List Reminder,
      (updateFirst p f l).map (fun r => (r.oid, r.user_id))
        = l.map fun r => (r.oid, r.user_id) := by
  intro l
  induction l with
  | nil => rfl
  | cons r rest ih =>
    by_cases hp : p r = true
    · simp [updateFirst, if_pos hp, hf r hp]
    · simp only [updateFirst, if_neg hp, List.map_cons, ih]

/-- Stability of the embedded stable sort: the sublist of entries with any
fixed key value is unchanged by sorting, provided equal keys are always
related. -/
theorem insertionSort_filter_key {α κ : Type} [DecidableEq κ]
    (r : α → α → Prop) [DecidableRel r] [IsTotal α r] [IsTrans α r]
    (key : α → κ) (hkey : ∀ a b, key a = key b → r a b) (l : List α) (k : κ) :
    (List.insertionSort r l).filter (fun x => decide (key x = k))
      = l.filter fun x => decide (key x = k) := by
  set pk : α → Bool := fun x => decide (key x = k) with hpk
  have hA : (l.filter pk).Pairwise r := by
    refine List.pairwise_of_forall_mem_list ?_
    intro a ha b hb
    have ha2 : key a = k := by simpa [hpk] using (List.mem_filter.1 ha).2
    have hb2 : key b = k := by simpa [hpk] using (List.mem_filter.1 hb).2
    exact hkey a b (ha2.trans hb2.symm)
  have hsub : List.Sublist (l.filter pk) (List.insertionSort r l) :=
    List.sublist_insertionSort hA (List.filter_sublist l)
  have hsub2 : List.Sublist (l.filter pk) ((List.insertionSort r l).filter pk) := by
    have := hsub.filter pk
    simpa [List.filter_filter] using this
  have hperm : List.Perm ((List.insertionSort r l).filter pk) (l.filter pk) :=
    (List.perm_insertionSort r l).filter pk
  exact ((hsub2.eq_of_length hperm.length_eq.symm)).symm

/-! ### C7 — create validation -/

/-- C7 counterexample: the claim says a create call with an explicitly null
title fails with `ValidationError`; in the code `data.get("title", "")`
returns `None` and `None.strip()` raises `AttributeError`, which is not a
`ValueError`, so the claim fails at this input. -/
theorem C7_counterexample :
    create_reminder [] "u" [("title", none)] 0 "x"
        = (.error (.attributeError "NoneType object has no attribute strip"), []) ∧
    isValueErr (create_reminder [] "u" [("title", none)] 0 "x").1 = false :=
  ⟨rfl, rfl⟩

/-- C7 (amended): a create call whose title field is absent or blank after
trimming fails with `ValidationError` and persists nothing (store unchanged);
an explicitly null title also persists nothing, but raises a non-validation
`AttributeError` rather than `ValidationError`; a create call with a
non-blank title persists a new record with `completed = false` and
`created_at = updated_at`, returned with its generated id. -/
theorem C7_create_validation (store : List Reminder) (u : String) (data : Doc)
    (t : Nat) (nid : String) :
    (List.lookup "title" data = none →
      create_reminder store u data t nid
        = (.error (.valueError "Reminder title is required"), store)) ∧
    (∀ s0 : String, List.lookup "title" data = some (some s0) → s0.trim = "" →
      create_reminder store u data t nid
        = (.error (.valueError "Reminder title is required"), store)) ∧
    (List.lookup "title" data = some none →
      create_reminder store u data t nid
          = (.error (.attributeError "NoneType object has no attribute strip"), store) ∧
        isValueErr (create_reminder store u data t nid).1 = false) ∧
    (∀ s0 : String, List.lookup "title" data = some (some s0) → s0.trim ≠ "" →
      ∃ rem, create_reminder store u data t nid = (.ok rem, store ++ [rem]) ∧
        rem.completed = false ∧ rem.created_at = t ∧ rem.updated_at = t ∧
        rem.oid = nid ∧ rem.title = s0.trim) := by
  refine ⟨?_, ?_, ?_, ?_⟩
  · intro h
    simp [create_reminder, h]
  · intro s0 h htrim
    simp [create_reminder, h, htrim]
  · intro h
    constructor
    · simp [create_reminder, h]
    · simp [create_reminder, h, isValueErr]
  · intro s0 h htrim
    refine ⟨{ oid := nid, user_id := u, title := s0.trim,
              notes := (List.lookup "notes" data).join,
              url := (List.lookup "url" data).join,
              date := (List.lookup "date" data).join,
              time := (List.lookup "time" data).join,
              priority := (List.lookup "priority" data).join,
              list := (List.lookup "list" data).join,
              tag := (List.lookup "tag" data).join,
              completed := false, rank := none, ai_priority := none,
              created_at := t, updated_at := t }, ?_, rfl, rfl, rfl, rfl, rfl⟩
    simp [create_reminder, h, htrim]

/-- C7 witness: the amended theorem applied to a concrete call with an absent
title. -/
theorem C7_witness :
    create_reminder [] "u" [] 0 "x"
      = (.error (.valueError "Reminder title is required"), []) :=
  (C7_create_validation [] "u" [] 0 "x").1 rfl

theorem mergeTask_task (items : List AiItem) (debug : Bool) (t : Reminder) :
    (mergeTask items debug t).task = t := by
  unfold mergeTask
  cases aiFind items t.oid <;> rfl

/-- A concrete reminder used by the concrete instances below. -/
def demoRem : Reminder :=
  { oid := "aaaaaaaaaaaaaaaaaaaaaaaa", user_id := "u", title := "demo",
    notes := none, url := none, date := none, time := none, priority := none,
    list := none, tag := none, completed := false, rank := none,
    ai_priority := none, created_at := 0, updated_at := 0 }

/-! ### C4 — ranking fallback -/

/-- C4 counterexample: on a provider failure with the debug flag set, the
code puts the string `"AI ranking unavailable"` into `reasoning`, not the
`"ranking unavailable"` stated by the claim. -/
theorem C4_counterexample :
    rank_tasks [demoRem] (.error ()) true
        = [{ task := demoRem, rank := 1/2, priority := "medium",
             reasoning := some "AI ranking unavailable" }] ∧
    (some "AI ranking unavailable" : Option String) ≠ some "ranking unavailable" := by
  refine ⟨rfl, by decide⟩

/-- C4 (amended): if the provider call fails (raises) or its content cannot
be parsed, `rank_tasks` returns one entry per input reminder, in order, with
`rank = 0.5` and priority `"medium"`, and with reasoning
`"AI ranking unavailable"` on every item exactly when the debug flag was
requested; the degraded result is an ordinary return value, never an error. -/
theorem C4_fallback (tasks : List Reminder) (debug : Bool) :
    (rank_tasks tasks (.error ()) debug).map RankedOut.task = tasks ∧
    ∀ o ∈ rank_tasks tasks (.error ()) debug,
      o.rank = 1/2 ∧ o.priority = "medium" ∧
      o.reasoning = (if debug then some "AI ranking unavailable" else none) := by
  by_cases h : tasks = []
  · subst h
    refine ⟨rfl, ?_⟩
    intro o ho
    simp [rank_tasks] at ho
  · constructor
    · simp only [rank_tasks, if_neg h, List.map_map]
      exact (List.map_congr_left fun a _ => rfl).trans (List.map_id tasks)
    · intro o ho
      simp only [rank_tasks, if_neg h] at ho
      rcases List.mem_map.1 ho with ⟨t0, _, rfl⟩
      exact ⟨rfl, rfl, rfl⟩

/-- C4 witness: the fallback entry produced from `demoRem` with debug set
carries rank `0.5`, priority `"medium"` and the fallback reasoning. -/
theorem C4_witness :
    ({ task := demoRem, rank := 1/2, priority := "medium",
       reasoning := some "AI ranking unavailable" } : RankedOut).rank = 1/2 ∧
    ({ task := demoRem, rank := 1/2, priority := "medium",
       reasoning := some "AI ranking unavailable" } : RankedOut).priority = "medium" ∧
    ({ task := demoRem, rank := 1/2, priority := "medium",
       reasoning := some "AI ranking unavailable" } : RankedOut).reasoning
      = (if true then some "AI ranking unavailable" else none) :=
  (C4_fallback [demoRem] true).2 _
    (show _ ∈ rank_tasks [demoRem] (Except.error ()) true from List.mem_singleton_self _)

/-! ### C2 — ranking merge on the success path -/

/-- C2: on the success path, `rank_tasks` emits exactly one entry per input
reminder (none dropped, none duplicated); an entry whose id is in the
provider lookup carries the provider rank and priority (and the provider
reasoning exactly when the debug flag was set), an entry whose id is absent
carries rank `0.5` and priority `"medium"`, and the output is sorted by rank
descending. -/
theorem C2_rank_merge (tasks : List Reminder) (items : List AiItem) (debug : Bool)
    (hnz : tasks ≠ []) :
    List.Perm ((rank_tasks tasks (.ok items) debug).map RankedOut.task) tasks ∧
    (∀ o ∈ rank_tasks tasks (.ok items) debug,
      (∀ ai, aiFind items o.task.oid = some ai →
        (∀ q, ai.rank = some q → o.rank = q) ∧
        (∀ p, ai.priority = some p → o.priority = p) ∧
        o.reasoning = (if debug then ai.reasoning else none)) ∧
      (aiFind items o.task.oid = none →
        o.rank = 1/2 ∧ o.priority = "medium" ∧ o.reasoning = none)) ∧
    (rank_tasks tasks (.ok items) debug).Pairwise (fun a b => b.rank ≤ a.rank) := by
  have hout : rank_tasks tasks (.ok items) debug
      = List.insertionSort rankDescLe (tasks.map (mergeTask items debug)) := by
    simp [rank_tasks, hnz]
  have h3 : (tasks.map (mergeTask items debug)).map RankedOut.task = tasks := by
    rw [List.map_map]
    exact (List.map_congr_left fun a _ => mergeTask_task items debug a).trans
      (List.map_id tasks)
  refine ⟨?_, ?_, ?_⟩
  · rw [hout]
    have h1 := List.perm_insertionSort rankDescLe (tasks.map (mergeTask items debug))
    have h2 := h1.map RankedOut.task
    rw [h3] at h2
    exact h2
  · intro o ho
    rw [hout] at ho
    have ho2 : o ∈ tasks.map (mergeTask items debug) :=
      (List.mem_insertionSort rankDescLe).1 ho
    rcases List.mem_map.1 ho2 with ⟨t0, _, rfl⟩
    rw [mergeTask_task]
    constructor
    · intro ai hai
      refine ⟨fun q hq => ?_, fun p hp => ?_, ?_⟩
      · simp [mergeTask, hai, hq]
      · simp [mergeTask, hai, hp]
      · simp [mergeTask, hai]
    · intro hnone
      refine ⟨?_, ?_, ?_⟩ <;> simp [mergeTask, hnone]
  · rw [hout]
    exact List.sorted_insertionSort rankDescLe (tasks.map (mergeTask items debug))

/-- C2 witness: the merge applied to one concrete reminder and an empty
provider item list emits exactly that reminder. -/
theorem C2_witness :
    List.Perm ((rank_tasks [demoRem] (.ok []) false).map RankedOut.task) [demoRem] :=
  (C2_rank_merge [demoRem] [] false (by decide)).1

/-! ### C3 — list ordering -/

theorem remLe_iff {a b : Reminder} :
    remLe a b ↔
      a.completed < b.completed ∨
        (a.completed = b.completed ∧ -(a.rank.getD (-1)) ≤ -(b.rank.getD (-1))) := by
  unfold remLe remKey
  exact Prod.Lex.le_iff _ _

theorem remLe_completed_mono {a b : Reminder} (h : remLe a b)
    (ha : a.completed = true) : b.completed = true := by
  rcases remLe_iff.1 h with h1 | ⟨h1, _⟩
  · rw [ha] at h1
    rcases Bool.lt_iff.1 h1 with ⟨h2, _⟩
    cases h2
  · rw [← h1, ha]

theorem remLe_rank_desc {a b : Reminder} (h : remLe a b)
    (hc : a.completed = b.completed) {qa qb : ℚ}
    (hqa : qa ∈ a.rank) (hqb : qb ∈ b.rank) : qb ≤ qa := by
  rcases remLe_iff.1 h with h1 | ⟨_, h2⟩
  · rw [hc] at h1
    exact absurd h1 (lt_irrefl _)
  · rw [Option.mem_def.1 hqa, Option.mem_def.1 hqb] at h2
    simpa using h2

theorem remLe_unranked_last {a b : Reminder} (h : remLe a b)
    (hc : a.completed = b.completed) (ha : a.rank = none)
    (hb : ∀ q ∈ b.rank, 0 ≤ q ∧ q ≤ 1) : b.rank = none := by
  rcases remLe_iff.1 h with h1 | ⟨_, h2⟩
  · rw [hc] at h1
    exact absurd h1 (lt_irrefl _)
  · cases hqb : b.rank with
    | none => rfl
    | some qb =>
      rw [ha, hqb] at h2
      simp only [Option.getD_none, Option.getD_some, neg_neg] at h2
      have h0 : (0 : ℚ) ≤ qb := (hb qb (by rw [hqb]; rfl)).1
      have : (1 : ℚ) ≤ -qb := h2
      linarith

/-- Reminders of the spec's four-element ordering example. -/
def demoR03 : Reminder :=
  { demoRem with oid := "bbbbbbbbbbbbbbbbbbbbbbbb", rank := some (mkRat 3 10) }

def demoR09 : Reminder :=
  { demoRem with oid := "cccccccccccccccccccccccc", rank := some (mkRat 9 10) }

def demoR99 : Reminder :=
  { demoRem with oid := "dddddddddddddddddddddddd", completed := true, rank := some (mkRat 99 100) }

def demoRNone : Reminder :=
  { demoRem with oid := "eeeeeeeeeeeeeeeeeeeeeeee", rank := none }

def demoStore4 : List Reminder := [demoR03, demoR09, demoR99, demoRNone]

/-- C3: `list_reminders` returns all reminders of the owner, ordered by the
two-key comparator — uncompleted before completed, rank descending within a
completion group, unranked after all ranked — with the sort stable for equal
keys; and the spec's four-reminder example produces exactly the stated
order. -/
theorem C3_list_ordering (store : List Reminder) (u : String)
    (hr : ∀ r ∈ store, ∀ q ∈ r.rank, 0 ≤ q ∧ q ≤ 1) :
    List.Perm (list_reminders store u) (store.filter fun r => decide (r.user_id = u)) ∧
    (list_reminders store u).Pairwise (fun a b => a.completed = true → b.completed = true) ∧
    (list_reminders store u).Pairwise (fun a b => a.completed = b.completed →
      ∀ qa ∈ a.rank, ∀ qb ∈ b.rank, qb ≤ qa) ∧
    (list_reminders store u).Pairwise (fun a b => a.completed = b.completed →
      a.rank = none → b.rank = none) ∧
    (∀ k : Bool × ℚ, (list_reminders store u).filter (fun r => decide (remKey r = k))
      = (store.filter fun r => decide (r.user_id = u)).filter fun r => decide (remKey r = k)) ∧
    list_reminders demoStore4 "u" = [demoR09, demoR03, demoRNone, demoR99] := by
  have hsorted : (list_reminders store u).Pairwise remLe :=
    List.sorted_insertionSort remLe (store.filter fun r => decide (r.user_id = u))
  have hmem : ∀ o ∈ list_reminders store u, o ∈ store := by
    intro o ho
    simp only [list_reminders] at ho
    exact (List.mem_filter.1 ((List.mem_insertionSort remLe).1 ho)).1
  refine ⟨?_, ?_, ?_, ?_, ?_, ?_⟩
  · exact List.perm_insertionSort remLe _
  · exact hsorted.imp fun h => remLe_completed_mono h
  · exact List.Pairwise.imp_of_mem
      (fun _ _ h => fun hc qa hqa qb hqb => remLe_rank_desc h hc hqa hqb) hsorted
  · refine List.Pairwise.imp_of_mem ?_ hsorted
    intro a b _ hb h
    exact fun hc ha => remLe_unranked_last h hc ha (hr b (hmem b hb))
  · intro k
    exact insertionSort_filter_key remLe remKey (fun a b h => by unfold remLe; rw [h]) _ k
  · rfl

/-- C3 witness: the theorem applied to the example store, whose ranks all lie
in `[0, 1]`. -/
theorem C3_witness :
    list_reminders demoStore4 "u" = [demoR09, demoR03, demoRNone, demoR99] :=
  (C3_list_ordering demoStore4 "u" (by decide)).2.2.2.2.2

/-! ### C10 — other-owner frame property of the batch mutations -/

theorem not_mem_foundIdsOf_of_other_owner {store : List Reminder} {u : String}
    {data : List String} {r : Reminder} (hso : (store.map Reminder.oid).Nodup)
    (hr : r ∈ store) (hu : r.user_id ≠ u) : r.oid ∉ foundIdsOf store u data := by
  intro hmem
  rcases mem_foundIdsOf.1 hmem with ⟨r2, hr2, hoid, _, hu2⟩
  have h12 : r2 = r := List.inj_on_of_nodup_map hso hr2 hr hoid
  exact hu (h12 ▸ hu2)

/-- C10: a batch delete or batch completion toggle issued by owner `u` leaves
every reminder of any other owner exactly in place (the whole other-owner
slice of the store is unchanged, order included), because the mutation covers
only the ids returned by the owner-filtered existence query. -/
theorem C10_owner_frame (store : List Reminder) (u : String) (data : List String)
    (hso : (store.map Reminder.oid).Nodup) :
    (∀ res store2, delete_reminders store u data = .ok (res, store2) →
      store2.filter (fun r => !(decide (r.user_id = u)))
        = store.filter fun r => !(decide (r.user_id = u))) ∧
    (∀ c t res store2, toggle_reminder_completion store u data c t = .ok (res, store2) →
      store2.filter (fun r => !(decide (r.user_id = u)))
        = store.filter fun r => !(decide (r.user_id = u))) := by
  constructor
  · intro res store2 h
    by_cases hd : data = []
    · simp [delete_reminders, hd] at h
    · simp only [delete_reminders, if_neg hd, Except.ok.injEq, Prod.mk.injEq] at h
      rw [← h.2]
      rw [List.filter_filter]
      refine List.filter_congr ?_
      intro x hx
      by_cases hxu : x.user_id = u
      · simp [hxu]
      · simp [hxu, not_mem_foundIdsOf_of_other_owner hso hx hxu]
  · intro c t res store2 h
    by_cases hd : data = []
    · simp [toggle_reminder_completion, hd] at h
    · simp only [toggle_reminder_completion, if_neg hd, Except.ok.injEq, Prod.mk.injEq] at h
      rw [← h.2]
      unfold toggleStoreOf
      by_cases he : existingOf store u data = []
      · rw [if_pos he]
      · rw [if_neg he]
        rw [List.filter_map]
        have hcongr : store.filter
            ((fun r => !(decide (r.user_id = u))) ∘ fun r =>
              if decide (r.oid ∈ foundIdsOf store u data) then applyToggle c t r else r)
            = store.filter fun r => !(decide (r.user_id = u)) := by
          refine List.filter_congr ?_
          intro x _
          by_cases hxf : x.oid ∈ foundIdsOf store u data
          · simp [Function.comp, hxf, applyToggle]
          · simp [Function.comp, hxf]
        rw [hcongr]
        refine (List.map_congr_left ?_).trans (List.map_id _)
        intro x hx
        have hxu : x.user_id ≠ u := by
          have := (List.mem_filter.1 hx).2
          simpa using this
        simp [not_mem_foundIdsOf_of_other_owner hso (List.mem_filter.1 hx).1 hxu]

/-- C10 witness: the frame equation instantiated at a concrete one-element
store owned by another user, for a delete issued by owner `"u"` naming that
very id. -/
theorem C10_witness :
    (([{ demoRem with user_id := "v" }].filter fun r =>
        !(decide (r.oid ∈ foundIdsOf [{ demoRem with user_id := "v" }] "u"
          ["aaaaaaaaaaaaaaaaaaaaaaaa"]))).filter fun r => !(decide (r.user_id = "u")))
      = [{ demoRem with user_id := "v" }].filter fun r => !(decide (r.user_id = "u")) :=
  (C10_owner_frame [{ demoRem with user_id := "v" }] "u" ["aaaaaaaaaaaaaaaaaaaaaaaa"]
      (by decide)).1 _ _ rfl

/-! ### C1 — batch result composition -/

/-- C1 counterexample: for a delete call over the single syntactically
invalid id `"zz"`, the invalid id is listed twice in `not_found` (once by the
not-found comprehension over all first-10 ids and once by the appended
invalid list), so `len(deleted) + len(not_found) + len(ignored)` is `2`, not
the input length `1` stated by the claim. -/
theorem C1_counterexample :
    delete_reminders [] "u" ["zz"]
        = .ok ({ found := [], not_found := ["zz", "zz"], ignored := [] }, []) ∧
    ¬ (({ found := [], not_found := ["zz", "zz"], ignored := [] } : BatchResult).found.length
        + ({ found := [], not_found := ["zz", "zz"], ignored := [] } : BatchResult).not_found.length
        + ({ found := [], not_found := ["zz", "zz"], ignored := [] } : BatchResult).ignored.length
        = (["zz"] : List String).length) :=
  ⟨rfl, by decide⟩

/-- C1 (amended): for a batch delete (and identically for a completion
toggle, which returns the very same result triple), `deleted` is the list of
ids found by the single owner-scoped query over the first 10 input ids, and
the mutation covers exactly those ids; `ignored` is the input tail beyond
position 10, verbatim; every id among the first 10 belongs to exactly one of
the found list and `not_found` as a set — but each syntactically invalid id
occurs twice in `not_found` (once from the not-found comprehension, once from
the appended invalid list), so the three lengths sum to the input length
*plus the number of invalid ids among the first 10*, assuming the first 10
ids are pairwise distinct and in normalised store-id form. -/
theorem C1_batch_composition (store : List Reminder) (u : String) (data : List String)
    (hnorm : ∀ s ∈ data.take 10, isValidOid s = true → normOid s = s)
    (hdup : (data.take 10).Nodup)
    (hso : (store.map Reminder.oid).Nodup) :
    ∀ res store2, delete_reminders store u data = .ok (res, store2) →
      res.ignored = data.drop 10 ∧
      (∀ i ∈ data.take 10, (i ∈ res.found ↔ i ∉ res.not_found)) ∧
      res.found.length + res.not_found.length + res.ignored.length
        = data.length + (data.take 10).countP (fun s => !(isValidOid s)) ∧
      (∀ i ∈ res.found, ∃ r ∈ store, r.oid = i ∧ r.user_id = u) ∧
      store2 = store.filter (fun r => !(decide (r.oid ∈ res.found))) ∧
      (∀ c t, toggle_reminder_completion store u data c t
        = .ok (res, toggleStoreOf store u data c t)) := by
  intro res store2 h
  by_cases hd : data = []
  · simp [delete_reminders, hd] at h
  · simp only [delete_reminders, if_neg hd, Except.ok.injEq, Prod.mk.injEq] at h
    obtain ⟨hres, hstore2⟩ := h
    subst hres
    subst hstore2
    have hpv1 : (parseIds (data.take 10)).1 = (data.take 10).filter isValidOid :=
      parseIds_fst_of_norm hnorm
    have hpv2 : (parseIds (data.take 10)).2
        = (data.take 10).filter fun s => !(isValidOid s) := parseIds_snd _
    have hFnodup : (foundIdsOf store u data).Nodup := foundIdsOf_nodup hso
    have hFsubA : ∀ x ∈ foundIdsOf store u data, x ∈ data.take 10 := by
      intro x hx
      rcases mem_foundIdsOf.1 hx with ⟨r, _, _, hv, _⟩
      rw [hpv1] at hv
      exact (List.mem_filter.1 hv).1
    have hFvalid : ∀ x ∈ foundIdsOf store u data, isValidOid x = true := by
      intro x hx
      rcases mem_foundIdsOf.1 hx with ⟨r, _, _, hv, _⟩
      rw [hpv1] at hv
      exact (List.mem_filter.1 hv).2
    refine ⟨rfl, ?_, ?_, ?_, rfl, ?_⟩
    · intro i hiA
      simp only [batchResultOf]
      constructor
      · intro hiF hmem
        rcases List.mem_append.1 hmem with h1 | h2
        · have h3 := (List.mem_filter.1 h1).2
          simp [hiF] at h3
        · rw [hpv2] at h2
          have h3 := (List.mem_filter.1 h2).2
          simp [hFvalid i hiF] at h3
      · intro hnin
        by_contra hiF
        apply hnin
        refine List.mem_append_left _ ?_
        exact List.mem_filter.2 ⟨hiA, by simpa using hiF⟩
    · simp only [batchResultOf, List.length_append]
      have hsplit := List.length_eq_length_filter_add
        (l := data.take 10) (fun i => decide (i ∈ foundIdsOf store u data))
      have hflen : ((data.take 10).filter fun i =>
          decide (i ∈ foundIdsOf store u data)).length
          = (foundIdsOf store u data).length := by
        have hnd1 : ((data.take 10).filter fun i =>
            decide (i ∈ foundIdsOf store u data)).Nodup := hdup.filter _
        have hiff : ∀ x, (x ∈ (data.take 10).filter fun i =>
            decide (i ∈ foundIdsOf store u data)) ↔ x ∈ foundIdsOf store u data := by
          intro x
          constructor
          · intro hx
            simpa using (List.mem_filter.1 hx).2
          · intro hx
            exact List.mem_filter.2 ⟨hFsubA x hx, by simpa using hx⟩
        exact ((List.perm_ext_iff_of_nodup hnd1 hFnodup).2 hiff).length_eq
      have hnf : (notFoundOf store u data).length
          = (data.take 10).length - (foundIdsOf store u data).length := by
        unfold notFoundOf
        omega
      have hinv : (parseIds (data.take 10)).2.length
          = (data.take 10).countP fun s => !(isValidOid s) := by
        rw [hpv2, List.countP_eq_length_filter]
      have hdl : (data.take 10).length + (data.drop 10).length = data.length := by
        rw [List.length_take, List.length_drop]
        omega
      have hFle : (foundIdsOf store u data).length ≤ (data.take 10).length := by
        rw [← hflen]
        exact List.length_filter_le _ _
      omega
    · intro i hi
      simp only [batchResultOf] at hi
      rcases mem_foundIdsOf.1 hi with ⟨r, hrs, hoid, _, hu⟩
      exact ⟨r, hrs, hoid, hu⟩
    · intro c t
      simp [toggle_reminder_completion, hd]

/-- C1 witness: the amended length equation at a concrete two-id input (one
valid owned id, one invalid id): the lengths sum to the input length plus
one. -/
theorem C1_witness :
    (batchResultOf [demoRem] "u" ["aaaaaaaaaaaaaaaaaaaaaaaa", "zz"]).found.length
      + (batchResultOf [demoRem] "u" ["aaaaaaaaaaaaaaaaaaaaaaaa", "zz"]).not_found.length
      + (batchResultOf [demoRem] "u" ["aaaaaaaaaaaaaaaaaaaaaaaa", "zz"]).ignored.length
      = (["aaaaaaaaaaaaaaaaaaaaaaaa", "zz"] : List String).length
        + ((["aaaaaaaaaaaaaaaaaaaaaaaa", "zz"] : List String).take 10).countP
            (fun s => !(isValidOid s)) :=
  ((C1_batch_composition [demoRem] "u" ["aaaaaaaaaaaaaaaaaaaaaaaa", "zz"]
      (by decide) (by decide) (by decide)) _ _ rfl).2.2.1

/-! ### C9 — toggling completion twice -/

theorem existingOf_toggleStoreOf (store : List Reminder) (u : String)
    (data : List String) (c : Bool) (t : Nat) :
    existingOf (toggleStoreOf store u data c t) u data
      = (existingOf store u data).map fun r =>
          if decide (r.oid ∈ foundIdsOf store u data) then applyToggle c t r else r := by
  unfold toggleStoreOf
  by_cases he : existingOf store u data = []
  · rw [if_pos he, he]
    simp
  · rw [if_neg he]
    set g : Reminder → Reminder := fun r =>
      if decide (r.oid ∈ foundIdsOf store u data) then applyToggle c t r else r with hg
    have hoid : ∀ r, (g r).oid = r.oid := by
      intro r
      rw [hg]
      by_cases hr : r.oid ∈ foundIdsOf store u data <;> simp [hr, applyToggle]
    have huser : ∀ r, (g r).user_id = r.user_id := by
      intro r
      rw [hg]
      by_cases hr : r.oid ∈ foundIdsOf store u data <;> simp [hr, applyToggle]
    unfold existingOf ownedQuery
    rw [List.filter_map]
    refine congrArg (List.map g) ?_
    refine List.filter_congr ?_
    intro x _
    simp [Function.comp, hoid, huser]

theorem foundIdsOf_toggleStoreOf (store : List Reminder) (u : String)
    (data : List String) (c : Bool) (t : Nat) :
    foundIdsOf (toggleStoreOf store u data c t) u data = foundIdsOf store u data := by
  unfold foundIdsOf
  rw [existingOf_toggleStoreOf, List.map_map]
  refine List.map_congr_left ?_
  intro r _
  by_cases hr : r.oid ∈ foundIdsOf store u data <;>
    simp [Function.comp, hr, applyToggle]

theorem batchResultOf_congr {s1 s2 : List Reminder} {u : String} {data : List String}
    (h : foundIdsOf s1 u data = foundIdsOf s2 u data) :
    batchResultOf s1 u data = batchResultOf s2 u data := by
  unfold batchResultOf notFoundOf
  rw [h]

theorem toggleStoreOf_comp (store : List Reminder) (u : String) (data : List String)
    (c : Bool) (t1 t2 : Nat) :
    toggleStoreOf (toggleStoreOf store u data c t1) u data c t2
      = toggleStoreOf store u data c t2 := by
  by_cases he : existingOf store u data = []
  · have h1 : toggleStoreOf store u data c t1 = store := by
      unfold toggleStoreOf
      rw [if_pos he]
    rw [h1]
  · set S1 := toggleStoreOf store u data c t1 with hS1
    have hg1 : S1 = store.map fun r =>
        if decide (r.oid ∈ foundIdsOf store u data) then applyToggle c t1 r else r := by
      rw [hS1]
      unfold toggleStoreOf
      rw [if_neg he]
    have he1 : existingOf S1 u data ≠ [] := by
      rw [hS1, existingOf_toggleStoreOf]
      simpa using he
    have hF : foundIdsOf S1 u data = foundIdsOf store u data := by
      rw [hS1]
      exact foundIdsOf_toggleStoreOf store u data c t1
    have hstep : toggleStoreOf S1 u data c t2
        = S1.map fun r =>
            if decide (r.oid ∈ foundIdsOf store u data) then applyToggle c t2 r else r := by
      unfold toggleStoreOf
      rw [if_neg he1, hF]
    have hrhs : toggleStoreOf store u data c t2
        = store.map fun r =>
            if decide (r.oid ∈ foundIdsOf store u data) then applyToggle c t2 r else r := by
      unfold toggleStoreOf
      rw [if_neg he]
    rw [hstep, hrhs, hg1, List.map_map]
    refine List.map_congr_left ?_
    intro r _
    by_cases hr : r.oid ∈ foundIdsOf store u data
    · simp [Function.comp, hr, applyToggle]
    · simp [Function.comp, hr]

/-- C9 counterexample: toggling the same owned id to completed twice, at
clock times 1 and 2, leaves the store with `updated_at = 2`, which differs
from the store after the single first call (`updated_at = 1`), so the final
states are not identical as the claim states. -/
theorem C9_counterexample :
    toggle_reminder_completion [demoRem] "u" ["aaaaaaaaaaaaaaaaaaaaaaaa"] true 1
        = .ok ({ found := ["aaaaaaaaaaaaaaaaaaaaaaaa"], not_found := [], ignored := [] },
               [{ demoRem with completed := true, updated_at := 1 }]) ∧
    toggle_reminder_completion [{ demoRem with completed := true, updated_at := 1 }] "u"
        ["aaaaaaaaaaaaaaaaaaaaaaaa"] true 2
        = .ok ({ found := ["aaaaaaaaaaaaaaaaaaaaaaaa"], not_found := [], ignored := [] },
               [{ demoRem with completed := true, updated_at := 2 }]) ∧
    [{ demoRem with completed := true, updated_at := 2 }]
       ≠ [{ demoRem with completed := true, updated_at := 1 }] :=
  ⟨rfl, rfl, by decide⟩

/-- C9 (amended): toggling completion twice over the same id set is
idempotent up to the refreshed `updated_at` timestamps: the second call's
result triple (its found set included) equals the first call's, and the final
store equals the store a single call issued at the second call's clock time
would produce. -/
theorem C9_toggle_twice (store : List Reminder) (u : String) (data : List String)
    (c : Bool) (t1 t2 : Nat) :
    ∀ res1 store1 res2 store2,
      toggle_reminder_completion store u data c t1 = .ok (res1, store1) →
      toggle_reminder_completion store1 u data c t2 = .ok (res2, store2) →
      res2 = res1 ∧ toggle_reminder_completion store u data c t2 = .ok (res1, store2) := by
  intro res1 store1 res2 store2 h1 h2
  by_cases hd : data = []
  · simp [toggle_reminder_completion, hd] at h1
  · simp only [toggle_reminder_completion, if_neg hd, Except.ok.injEq, Prod.mk.injEq] at h1 h2
    obtain ⟨hres1, hstore1⟩ := h1
    subst hres1
    subst hstore1
    obtain ⟨hres2, hstore2⟩ := h2
    subst hres2
    subst hstore2
    constructor
    · exact batchResultOf_congr (foundIdsOf_toggleStoreOf store u data c t1)
    · rw [toggleStoreOf_comp store u data c t1 t2]
      simp [toggle_reminder_completion, hd]

/-- C9 witness: the amended theorem at a concrete one-reminder store toggled
twice. -/
theorem C9_witness :
    ({ found := ["aaaaaaaaaaaaaaaaaaaaaaaa"], not_found := [], ignored := [] } : BatchResult)
        = { found := ["aaaaaaaaaaaaaaaaaaaaaaaa"], not_found := [], ignored := [] } ∧
    toggle_reminder_completion [demoRem] "u" ["aaaaaaaaaaaaaaaaaaaaaaaa"] true 2
        = .ok ({ found := ["aaaaaaaaaaaaaaaaaaaaaaaa"], not_found := [], ignored := [] },
               [{ demoRem with completed := true, updated_at := 2 }]) :=
  C9_toggle_twice [demoRem] "u" ["aaaaaaaaaaaaaaaaaaaaaaaa"] true 1 2 _ _ _ _ rfl rfl

/-! ### C6 — update allow-list -/

/-- C6: only the fixed allow-list of fields can be patched: two patches that
agree on the allow-listed keys produce identical calls (every other key is
silently ignored); a patch with no allow-listed key fails with the
"no valid fields" `ValidationError`; an included title must be non-blank
after trimming (`ValidationError` otherwise) and is stored trimmed; every
other allowed field is stored verbatim, explicit null included, and all
non-patchable record fields are kept. -/
theorem C6_update_allowlist (store : List Reminder) (u rid : String) (data : Doc)
    (t : Nat) (hv : isValidOid rid = true) :
    (∀ data2 : Doc, (∀ f ∈ allowedFields, List.lookup f data2 = List.lookup f data) →
      update_reminder store u rid data2 t = update_reminder store u rid data t) ∧
    ((∀ f ∈ allowedFields, List.lookup f data = none) →
      update_reminder store u rid data t = .error (.valueError "No valid fields to update")) ∧
    (∀ v, List.lookup "title" data = some v → (v.getD "").trim = "" →
      update_reminder store u rid data t
        = .error (.valueError "Reminder title cannot be empty")) ∧
    (∀ rem store2, update_reminder store u rid data t = .ok (rem, store2) →
      ∃ r0, store.find? (docMatch u (normOid rid)) = some r0 ∧
        rem.user_id = r0.user_id ∧ rem.completed = r0.completed ∧ rem.rank = r0.rank ∧
        rem.ai_priority = r0.ai_priority ∧ rem.created_at = r0.created_at ∧
        rem.oid = r0.oid ∧ rem.updated_at = t ∧
        (∀ v, List.lookup "title" data = some v → rem.title = (v.getD "").trim) ∧
        (List.lookup "title" data = none → rem.title = r0.title) ∧
        (∀ w, List.lookup "notes" data = some w → rem.notes = w) ∧
        (List.lookup "notes" data = none → rem.notes = r0.notes) ∧
        (∀ w, List.lookup "url" data = some w → rem.url = w) ∧
        (List.lookup "url" data = none → rem.url = r0.url) ∧
        (∀ w, List.lookup "date" data = some w → rem.date = w) ∧
        (List.lookup "date" data = none → rem.date = r0.date) ∧
        (∀ w, List.lookup "time" data = some w → rem.time = w) ∧
        (List.lookup "time" data = none → rem.time = r0.time) ∧
        (∀ w, List.lookup "priority" data = some w → rem.priority = w) ∧
        (List.lookup "priority" data = none → rem.priority = r0.priority) ∧
        (∀ w, List.lookup "list" data = some w → rem.list = w) ∧
        (List.lookup "list" data = none → rem.list = r0.list) ∧
        (∀ w, List.lookup "tag" data = some w → rem.tag = w) ∧
        (List.lookup "tag" data = none → rem.tag = r0.tag)) := by
  refine ⟨?_, ?_, ?_, ?_⟩
  · intro data2 hagree
    have hbuild : buildUpdate data2 = buildUpdate data := by
      unfold buildUpdate titleField
      rw [hagree "title" (by simp [allowedFields]),
        hagree "notes" (by simp [allowedFields]),
        hagree "url" (by simp [allowedFields]),
        hagree "date" (by simp [allowedFields]),
        hagree "time" (by simp [allowedFields]),
        hagree "priority" (by simp [allowedFields]),
        hagree "list" (by simp [allowedFields]),
        hagree "tag" (by simp [allowedFields])]
    unfold update_reminder
    rw [hbuild]
  · intro hnone
    have h1 := hnone "title" (by simp [allowedFields])
    have h2 := hnone "notes" (by simp [allowedFields])
    have h3 := hnone "url" (by simp [allowedFields])
    have h4 := hnone "date" (by simp [allowedFields])
    have h5 := hnone "time" (by simp [allowedFields])
    have h6 := hnone "priority" (by simp [allowedFields])
    have h7 := hnone "list" (by simp [allowedFields])
    have h8 := hnone "tag" (by simp [allowedFields])
    simp [update_reminder, buildUpdate, titleField, hv, h1, h2, h3, h4, h5, h6, h7, h8,
      UpdDoc.isEmptyUpd]
  · intro v hlv htrim
    simp [update_reminder, buildUpdate, titleField, hv, hlv, htrim]
  · intro rem store2 h
    unfold update_reminder at h
    rw [if_pos hv] at h
    split at h
    next e hb => exact Except.noConfusion h
    next d hb =>
      split at h
      next hemp => exact Except.noConfusion h
      next hemp =>
        split at h
        next hfind => exact Except.noConfusion h
        next r0 hfind =>
          simp only [Except.ok.injEq, Prod.mk.injEq] at h
          obtain ⟨hrem, _⟩ := h
          cases htf : titleField data with
          | error e =>
            unfold buildUpdate at hb
            rw [htf] at hb
            cases hb
          | ok tf =>
            unfold buildUpdate at hb
            rw [htf] at hb
            simp only [Except.ok.injEq] at hb
            subst hb
            subst hrem
            refine ⟨r0, hfind, rfl, rfl, rfl, rfl, rfl, rfl, rfl, ?_, ?_, ?_, ?_, ?_, ?_,
              ?_, ?_, ?_, ?_, ?_, ?_, ?_, ?_, ?_, ?_⟩
            · intro v hlv
              unfold titleField at htf
              rw [hlv] at htf
              by_cases ht0 : (v.getD "").trim = ""
              · simp [ht0] at htf
              · simp only [ht0, if_false, Except.ok.injEq] at htf
                simp [applyUpd, ← htf]
            · intro hlv
              unfold titleField at htf
              rw [hlv] at htf
              simp only [Except.ok.injEq] at htf
              simp [applyUpd, ← htf]
            · intro w hw
              simp [applyUpd, hw]
            · intro hw
              simp [applyUpd, hw]
            · intro w hw
              simp [applyUpd, hw]
            · intro hw
              simp [applyUpd, hw]
            · intro w hw
              simp [applyUpd, hw]
            · intro hw
              simp [applyUpd, hw]
            · intro w hw
              simp [applyUpd, hw]
            · intro hw
              simp [applyUpd, hw]
            · intro w hw
              simp [applyUpd, hw]
            · intro hw
              simp [applyUpd, hw]
            · intro w hw
              simp [applyUpd, hw]
            · intro hw
              simp [applyUpd, hw]
            · intro w hw
              simp [applyUpd, hw]
            · intro hw
              simp [applyUpd, hw]

/-- C6 witness: a patch holding only an unknown key is rejected with the
"no valid fields" validation error. -/
theorem C6_witness :
    update_reminder [demoRem] "u" "aaaaaaaaaaaaaaaaaaaaaaaa" [("bogus", some "1")] 5
      = .error (.valueError "No valid fields to update") :=
  (C6_update_allowlist [demoRem] "u" "aaaaaaaaaaaaaaaaaaaaaaaa" [("bogus", some "1")] 5
      (by decide)).2.1 (by decide)

/-! ### C8 — ranking persistence -/

/-- The items the save loop actually processes: id present and truthy, rank
non-null (everything else is skipped by the `continue`). -/
def keptOf (ranked : List RankedItem) : List RankedItem :=
  ranked.filter fun it => !(decide (it.id.getD "" = "")) && !(it.rank.isNone)

/-- Does processing this item raise: the id fails to parse, or the store
update throws (the `failOn` oracle)? -/
def raisesB (failOn : String → Bool) (it : RankedItem) : Bool :=
  !(isValidOid (it.id.getD "")) || failOn (it.id.getD "")

/-- The error entry recorded for a raising item, keyed by the item's id. -/
def itemErr (failOn : String → Bool) (it : RankedItem) : SaveErr :=
  if isValidOid (it.id.getD "") then { id := it.id, errMsg := "store update failed" }
  else { id := it.id, errMsg := "invalid id" }

/-- The `(id, owner)` pairs present in a store state. -/
def idOwnerPairs (s : List Reminder) : List (String × String) :=
  s.map fun r => (r.oid, r.user_id)

/-- Some stored record matches the item's `(id, owner)` scope. -/
def matchedIn (s : List Reminder) (u : String) (it : RankedItem) : Prop :=
  (normOid (it.id.getD ""), u) ∈ idOwnerPairs s

instance (s : List Reminder) (u : String) (it : RankedItem) :
    Decidable (matchedIn s u it) :=
  inferInstanceAs (Decidable ((normOid (it.id.getD ""), u) ∈ idOwnerPairs s))

theorem matchedIn_congr {s1 s2 : List Reminder} {u : String}
    (h : idOwnerPairs s1 = idOwnerPairs s2) (it : RankedItem) :
    matchedIn s1 u it ↔ matchedIn s2 u it := by
  unfold matchedIn
  rw [h]

theorem matchedIn_iff {s : List Reminder} {u : String} {it : RankedItem} :
    matchedIn s u it ↔
      ∃ r ∈ s, r.oid = normOid (it.id.getD "") ∧ r.user_id = u := by
  unfold matchedIn idOwnerPairs
  constructor
  · intro hm
    rcases List.mem_map.1 hm with ⟨r, hr, hpair⟩
    rw [Prod.mk.injEq] at hpair
    exact ⟨r, hr, hpair.1, hpair.2⟩
  · rintro ⟨r, hr, h1, h2⟩
    exact List.mem_map.2 ⟨r, hr, by rw [h1, h2]⟩

theorem save_step_spec (u : String) (failOn : String → Bool) :
    ∀ (items : List RankedItem) (t : Nat) (s : List Reminder) (cnt : Nat)
      (errs : List SaveErr),
      (∀ r ∈ s, r.updated_at < t) →
      (save_step u failOn items t s cnt errs).1.updated
          = cnt + (keptOf items).countP (fun it =>
              !(raisesB failOn it) && decide (matchedIn s u it)) ∧
      (save_step u failOn items t s cnt errs).1.errors
          = errs ++ ((keptOf items).filter (raisesB failOn)).map (itemErr failOn) ∧
      idOwnerPairs (save_step u failOn items t s cnt errs).2 = idOwnerPairs s ∧
      (save_step u failOn items t s cnt errs).2.filter (fun r => !(decide (r.user_id = u)))
          = s.filter fun r => !(decide (r.user_id = u)) := by
  intro items
  induction items with
  | nil =>
    intro t s cnt errs _
    refine ⟨?_, ?_, rfl, rfl⟩ <;> simp [save_step, keptOf]
  | cons it rest ih =>
    intro t s cnt errs hfr
    have hfr1 : ∀ r ∈ s, r.updated_at < t + 1 := fun r hr => Nat.lt_succ_of_lt (hfr r hr)
    by_cases hskip : (decide (it.id.getD "" = "") || it.rank.isNone) = true
    · have hstep : save_step u failOn (it :: rest) t s cnt errs
          = save_step u failOn rest (t + 1) s cnt errs := by
        simp only [save_step]
        rw [if_pos hskip]
      have hkept : keptOf (it :: rest) = keptOf rest := by
        unfold keptOf
        rw [List.filter_cons_of_neg]
        simp only [Bool.or_eq_true] at hskip
        rcases hskip with h | h <;> simp [h]
      rw [hstep, hkept]
      exact ih (t + 1) s cnt errs hfr1
    · have hkept : keptOf (it :: rest) = it :: keptOf rest := by
        unfold keptOf
        rw [List.filter_cons_of_pos]
        simp only [Bool.or_eq_true, not_or] at hskip
        simp [hskip.1, hskip.2]
      by_cases hval : isValidOid (it.id.getD "") = true
      · by_cases hfail : failOn (it.id.getD "") = true
        · have hstep : save_step u failOn (it :: rest) t s cnt errs
              = save_step u failOn rest (t + 1) s cnt
                  (errs ++ [{ id := it.id, errMsg := "store update failed" }]) := by
            simp only [save_step]
            rw [if_neg hskip, if_pos hval, if_pos hfail]
          have hraise : raisesB failOn it = true := by
            simp [raisesB, hfail]
          obtain ⟨ih1, ih2, ih3, ih4⟩ := ih (t + 1) s cnt
            (errs ++ [{ id := it.id, errMsg := "store update failed" }]) hfr1
          rw [hstep, hkept]
          refine ⟨?_, ?_, ih3, ih4⟩
          · rw [ih1, List.countP_cons_of_neg]
            simp [hraise]
          · rw [ih2, List.filter_cons_of_pos hraise, List.map_cons, itemErr,
              if_pos hval, List.append_assoc]
            rfl
        · by_cases hm : matchedIn s u it
          · rcases matchedIn_iff.1 hm with ⟨r0m, hr0m, hoid0, hu0⟩
            have hfindSome : (s.find? (docMatch u (normOid (it.id.getD "")))).isSome := by
              rw [List.find?_isSome]
              exact ⟨r0m, hr0m, by simp [docMatch, hoid0, hu0]⟩
            rcases Option.isSome_iff_exists.1 hfindSome with ⟨r0, hfind⟩
            have hr0mem : r0 ∈ s := List.mem_of_find?_eq_some hfind
            have hr0upd : r0.updated_at < t := hfr r0 hr0mem
            have hne : applyRank it t r0 ≠ r0 := by
              intro he
              have : (applyRank it t r0).updated_at = r0.updated_at := by rw [he]
              simp [applyRank] at this
              omega
            have hstep : save_step u failOn (it :: rest) t s cnt errs
                = save_step u failOn rest (t + 1)
                    (updateFirst (docMatch u (normOid (it.id.getD "")))
                      (fun _ => applyRank it t r0) s)
                    (cnt + 1) errs := by
              simp only [save_step]
              simp [hskip, hval, hfail, hfind, hne]
            have hpr0 : docMatch u (normOid (it.id.getD "")) r0 = true :=
              List.find?_some hfind
            have hpair : ∀ y, docMatch u (normOid (it.id.getD "")) y = true →
                ((applyRank it t r0).oid, (applyRank it t r0).user_id)
                  = (y.oid, y.user_id) := by
              intro y hy
              unfold docMatch at hy hpr0
              simp only [Bool.and_eq_true, decide_eq_true_eq] at hy hpr0
              simp [applyRank, hy.1, hy.2, hpr0.1, hpr0.2]
            set s2 := updateFirst (docMatch u (normOid (it.id.getD "")))
              (fun _ => applyRank it t r0) s with hs2
            have hpairs : idOwnerPairs s2 = idOwnerPairs s :=
              updateFirst_map_pair (fun y hy => hpair y hy) s
            have hfr2 : ∀ r ∈ s2, r.updated_at < t + 1 := by
              intro r hr
              rcases mem_updateFirst hr with h2 | ⟨y, hy, _, rfl⟩
              · exact Nat.lt_succ_of_lt (hfr r h2)
              · simp [applyRank]
            obtain ⟨ih1, ih2, ih3, ih4⟩ := ih (t + 1) s2 (cnt + 1) errs hfr2
            rw [hstep, hkept]
            refine ⟨?_, ?_, by rw [ih3, hpairs], ?_⟩
            · rw [ih1, List.countP_cons_of_pos]
              · have hcong : (keptOf rest).countP (fun x =>
                    !(raisesB failOn x) && decide (matchedIn s2 u x))
                    = (keptOf rest).countP (fun x =>
                      !(raisesB failOn x) && decide (matchedIn s u x)) := by
                  refine List.countP_congr ?_
                  intro x _
                  rw [Bool.and_eq_true, Bool.and_eq_true, decide_eq_true_eq,
                    decide_eq_true_eq, matchedIn_congr hpairs]
                omega
              · simp [raisesB, hval, hfail, hm]
            · rw [ih2, List.filter_cons_of_neg]
              simp [raisesB, hval, hfail]
            · rw [ih4, hs2]
              refine updateFirst_filter_eq ?_ ?_ s
              · intro y hy
                unfold docMatch at hy
                simp only [Bool.and_eq_true, decide_eq_true_eq] at hy
                simp [hy.2]
              · intro y _
                have hpr2 := hpr0
                unfold docMatch at hpr2
                simp only [Bool.and_eq_true, decide_eq_true_eq] at hpr2
                simp [applyRank, hpr2.2]
          · have hfindNone : s.find? (docMatch u (normOid (it.id.getD ""))) = none := by
              rw [List.find?_eq_none]
              intro x hx hp
              apply hm
              unfold docMatch at hp
              simp only [Bool.and_eq_true, decide_eq_true_eq] at hp
              exact matchedIn_iff.2 ⟨x, hx, hp⟩
            have hstep : save_step u failOn (it :: rest) t s cnt errs
                = save_step u failOn rest (t + 1) s cnt errs := by
              simp only [save_step]
              simp [hskip, hval, hfail, hfindNone]
            obtain ⟨ih1, ih2, ih3, ih4⟩ := ih (t + 1) s cnt errs hfr1
            rw [hstep, hkept]
            refine ⟨?_, ?_, ih3, ih4⟩
            · rw [ih1, List.countP_cons_of_neg]
              simp [hm]
            · rw [ih2, List.filter_cons_of_neg]
              simp [raisesB, hval, hfail]
      · have hstep : save_step u failOn (it :: rest) t s cnt errs
            = save_step u failOn rest (t + 1) s cnt
                (errs ++ [{ id := it.id, errMsg := "invalid id" }]) := by
          simp only [save_step]
          rw [if_neg hskip, if_neg hval]
        have hraise : raisesB failOn it = true := by
          simp [raisesB, hval]
        obtain ⟨ih1, ih2, ih3, ih4⟩ := ih (t + 1) s cnt
          (errs ++ [{ id := it.id, errMsg := "invalid id" }]) hfr1
        rw [hstep, hkept]
        refine ⟨?_, ?_, ih3, ih4⟩
        · rw [ih1, List.countP_cons_of_neg]
          simp [hraise]
        · rw [ih2, List.filter_cons_of_pos hraise, List.map_cons, itemErr,
            if_neg (by simpa using hval), List.append_assoc]
          rfl

/-- C8: `save_ranking_results` fails with `ValidationError` exactly when the
ranked list is empty.  Otherwise it returns normally: items without a truthy
id or with a null rank are skipped and contribute neither errors nor
updates; every remaining item whose processing raises (unparseable id, or
the store update failing) is recorded in the error list keyed by its id
without aborting the rest; the updated count is the number of remaining
items whose `(id, owner)`-scoped update matched a record (an item whose id
belongs to another owner matches nothing and is silently not counted); and
reminders of other owners are never modified. -/
theorem C8_save_ranking (store : List Reminder) (u : String) (ranked : List RankedItem)
    (t : Nat) (failOn : String → Bool)
    (hfresh : ∀ r ∈ store, r.updated_at < t) :
    (ranked = [] ↔ save_ranking_results store u ranked t failOn
        = .error (.valueError "No ranked reminders to save")) ∧
    (∀ res store2, save_ranking_results store u ranked t failOn = .ok (res, store2) →
      res.updated = (keptOf ranked).countP (fun it =>
          !(raisesB failOn it) && decide (matchedIn store u it)) ∧
      res.errors = ((keptOf ranked).filter (raisesB failOn)).map (itemErr failOn) ∧
      store2.filter (fun r => !(decide (r.user_id = u)))
        = store.filter fun r => !(decide (r.user_id = u))) := by
  constructor
  · constructor
    · intro h
      simp [save_ranking_results, h]
    · intro h
      by_contra hne
      simp [save_ranking_results, hne] at h
  · intro res store2 h
    by_cases hd : ranked = []
    · simp [save_ranking_results, hd] at h
    · simp only [save_ranking_results, if_neg hd, Except.ok.injEq] at h
      have hs := save_step_spec u failOn ranked t store 0 [] hfresh
      rw [h] at hs
      obtain ⟨hs1, hs2, _, hs4⟩ := hs
      exact ⟨by simpa using hs1, by simpa using hs2, hs4⟩

/-- C8 witness: the updated-count equation at a concrete store and a single
well-formed ranked item targeting the stored reminder. -/
theorem C8_witness :
    (save_step "u" (fun _ => false)
        [{ id := some "aaaaaaaaaaaaaaaaaaaaaaaa", rank := some 1, ai_priority := none }]
        1 [demoRem] 0 []).1.updated
      = (keptOf
            [{ id := some "aaaaaaaaaaaaaaaaaaaaaaaa", rank := some 1, ai_priority := none }]).countP
          (fun it => !(raisesB (fun _ => false) it)
            && decide (matchedIn [demoRem] "u" it)) :=
  ((C8_save_ranking [demoRem] "u"
      [{ id := some "aaaaaaaaaaaaaaaaaaaaaaaa", rank := some 1, ai_priority := none }]
      1 (fun _ => false) (by decide)).2 _ _ rfl).1

/-! ### C5 — persisted-rank invariant -/

theorem rank_tasks_rank_bounds (tasks : List Reminder)
    (outcome : Except Unit (List AiItem)) (debug : Bool)
    (hok : ∀ items, outcome = .ok items → ∀ it ∈ items, ∀ q ∈ it.rank, 0 ≤ q ∧ q ≤ 1) :
    ∀ o ∈ rank_tasks tasks outcome debug, 0 ≤ o.rank ∧ o.rank ≤ 1 := by
  intro o ho
  by_cases hd : tasks = []
  · simp [rank_tasks, hd] at ho
  · rw [rank_tasks.eq_def, if_neg hd] at ho
    cases outcome with
    | error e =>
      rcases List.mem_map.1 ho with ⟨t0, _, rfl⟩
      norm_num
    | ok items =>
      have ho2 := (List.mem_insertionSort rankDescLe).1 ho
      rcases List.mem_map.1 ho2 with ⟨t0, _, rfl⟩
      cases hai : aiFind items t0.oid with
      | none =>
        simp only [mergeTask, hai]
        norm_num
      | some ai =>
        simp only [mergeTask, hai]
        cases hr : ai.rank with
        | none =>
          simp only [Option.getD_none]
          norm_num
        | some q =>
          have hmem : ai ∈ items := by
            unfold aiFind at hai
            exact List.mem_reverse.1 (List.mem_of_find?_eq_some hai)
          have hb := hok items rfl ai hmem q (by rw [hr]; rfl)
          simpa using hb

theorem save_step_rankInv (u : String) (failOn : String → Bool) :
    ∀ (items : List RankedItem) (t : Nat) (s : List Reminder) (cnt : Nat)
      (errs : List SaveErr),
      RankInv s →
      (∀ it ∈ items, ∀ q ∈ it.rank, 0 ≤ q ∧ q ≤ 1) →
      RankInv (save_step u failOn items t s cnt errs).2 := by
  intro items
  induction items with
  | nil =>
    intro t s cnt errs hs _
    exact hs
  | cons it rest ih =>
    intro t s cnt errs hs hit
    have hit2 : ∀ x ∈ rest, ∀ q ∈ x.rank, 0 ≤ q ∧ q ≤ 1 :=
      fun x hx => hit x (List.mem_cons_of_mem _ hx)
    by_cases hskip : (decide (it.id.getD "" = "") || it.rank.isNone) = true
    · have hstep : save_step u failOn (it :: rest) t s cnt errs
          = save_step u failOn rest (t + 1) s cnt errs := by
        simp only [save_step]
        rw [if_pos hskip]
      rw [hstep]
      exact ih (t + 1) s cnt errs hs hit2
    · by_cases hval : isValidOid (it.id.getD "") = true
      · by_cases hfail : failOn (it.id.getD "") = true
        · have hstep : save_step u failOn (it :: rest) t s cnt errs
              = save_step u failOn rest (t + 1) s cnt
                  (errs ++ [{ id := it.id, errMsg := "store update failed" }]) := by
            simp only [save_step]
            rw [if_neg hskip, if_pos hval, if_pos hfail]
          rw [hstep]
          exact ih _ s cnt _ hs hit2
        · cases hfind : s.find? (docMatch u (normOid (it.id.getD ""))) with
          | none =>
            have hstep : save_step u failOn (it :: rest) t s cnt errs
                = save_step u failOn rest (t + 1) s cnt errs := by
              simp only [save_step]
              simp [hskip, hval, hfail, hfind]
            rw [hstep]
            exact ih _ s cnt _ hs hit2
          | some r0 =>
            have hstep : save_step u failOn (it :: rest) t s cnt errs
                = save_step u failOn rest (t + 1)
                    (updateFirst (docMatch u (normOid (it.id.getD "")))
                      (fun _ => applyRank it t r0) s)
                    (if applyRank it t r0 = r0 then cnt else cnt + 1) errs := by
              simp only [save_step]
              simp [hskip, hval, hfail, hfind]
            rw [hstep]
            refine ih _ _ _ _ ?_ hit2
            intro r hr q hq
            rcases mem_updateFirst hr with h2 | ⟨y, _, _, rfl⟩
            · exact hs r h2 q hq
            · have hq2 : q ∈ it.rank := by simpa [applyRank] using hq
              exact hit it (List.mem_cons_self it rest) q hq2
      · have hstep : save_step u failOn (it :: rest) t s cnt errs
            = save_step u failOn rest (t + 1) s cnt
                (errs ++ [{ id := it.id, errMsg := "invalid id" }]) := by
          simp only [save_step]
          rw [if_neg hskip, if_neg hval]
        rw [hstep]
        exact ih _ s cnt _ hs hit2

/-- C5 counterexample: the claim quantifies over every possible provider
response, but an out-of-range provider rank (here `2`) flows through the
ranking merge and `save_ranking_results` unclamped: the pipeline persists
rank `2`, violating the `[0, 1]` invariant. -/
theorem C5_counterexample :
    RankInv [demoRem] ∧
    save_ranking_results [demoRem] "u"
        ((rank_tasks [demoRem]
            (.ok [{ id := some "aaaaaaaaaaaaaaaaaaaaaaaa", rank := some 2,
                    priority := some "high", reasoning := none }]) false).map toRankedItem)
        1 (fun _ => false)
      = .ok ({ updated := 1, errors := [] },
             [{ demoRem with rank := some 2, ai_priority := none, updated_at := 1 }]) ∧
    ¬ RankInv [{ demoRem with rank := some 2, ai_priority := none, updated_at := 1 }] := by
  refine ⟨?_, rfl, ?_⟩
  · intro r hr q hq
    rw [List.mem_singleton] at hr
    subst hr
    simp [demoRem] at hq
  · intro h
    have h2 := h _ (List.mem_singleton_self _) 2 rfl
    norm_num at h2

/-- C5 (amended): every engine operation preserves the persisted-rank
invariant `rank ∈ [0, 1]` — create and update never write a rank, the batch
mutations never touch it, and the ranking pipeline (merge followed by
`save_ranking_results`) preserves it *provided every rank the provider
returned lies in `[0, 1]`* (the provider interface contract); an
out-of-range provider rank is persisted verbatim, so the unconditional claim
fails. -/
theorem C5_rank_invariant (store : List Reminder) (u : String) (t : Nat)
    (hinv : RankInv store) :
    (∀ data nid, RankInv (create_reminder store u data t nid).2) ∧
    (∀ rid data rem store2, update_reminder store u rid data t = .ok (rem, store2) →
      RankInv store2) ∧
    (∀ data res store2, delete_reminders store u data = .ok (res, store2) →
      RankInv store2) ∧
    (∀ data c res store2, toggle_reminder_completion store u data c t = .ok (res, store2) →
      RankInv store2) ∧
    (∀ tasks outcome debug failOn res store2,
      (∀ items, outcome = Except.ok items → ∀ it ∈ items, ∀ q ∈ it.rank, 0 ≤ q ∧ q ≤ 1) →
      save_ranking_results store u ((rank_tasks tasks outcome debug).map toRankedItem)
          t failOn = .ok (res, store2) →
      RankInv store2) := by
  refine ⟨?_, ?_, ?_, ?_, ?_⟩
  · intro data nid
    unfold create_reminder
    cases hlk : List.lookup "title" data with
    | none =>
      simp only
      exact hinv
    | some v =>
      cases v with
      | none => exact hinv
      | some s0 =>
        by_cases ht : s0.trim = ""
        · simp only [ht, if_pos rfl]
          exact hinv
        · simp only [if_neg ht]
          intro r hr q hq
          rcases List.mem_append.1 hr with h2 | h2
          · exact hinv r h2 q hq
          · rw [List.mem_singleton] at h2
            subst h2
            simp at hq
  · intro rid data rem store2 h
    unfold update_reminder at h
    by_cases hv : isValidOid rid = true
    · rw [if_pos hv] at h
      split at h
      next => exact Except.noConfusion h
      next d hb =>
        split at h
        next => exact Except.noConfusion h
        next hemp =>
          split at h
          next => exact Except.noConfusion h
          next r0 hfind =>
            simp only [Except.ok.injEq, Prod.mk.injEq] at h
            obtain ⟨_, hst⟩ := h
            subst hst
            intro r hr q hq
            rcases mem_updateFirst hr with h2 | ⟨y, _, _, rfl⟩
            · exact hinv r h2 q hq
            · exact hinv r0 (List.mem_of_find?_eq_some hfind) q
                (by simpa [applyUpd] using hq)
    · rw [if_neg hv] at h
      exact Except.noConfusion h
  · intro data res store2 h
    by_cases hd : data = []
    · simp [delete_reminders, hd] at h
    · simp only [delete_reminders, if_neg hd, Except.ok.injEq, Prod.mk.injEq] at h
      obtain ⟨_, hst⟩ := h
      subst hst
      intro r hr q hq
      exact hinv r (List.mem_filter.1 hr).1 q hq
  · intro data c res store2 h
    by_cases hd : data = []
    · simp [toggle_reminder_completion, hd] at h
    · simp only [toggle_reminder_completion, if_neg hd, Except.ok.injEq, Prod.mk.injEq] at h
      obtain ⟨_, hst⟩ := h
      subst hst
      unfold toggleStoreOf
      by_cases he : existingOf store u data = []
      · rw [if_pos he]
        exact hinv
      · rw [if_neg he]
        intro r hr q hq
        rcases List.mem_map.1 hr with ⟨r0, hr0, rfl⟩
        by_cases hf : r0.oid ∈ foundIdsOf store u data
        · have hq2 : q ∈ r0.rank := by simpa [hf, applyToggle] using hq
          exact hinv r0 hr0 q hq2
        · have hq2 : q ∈ r0.rank := by simpa [hf] using hq
          exact hinv r0 hr0 q hq2
  · intro tasks outcome debug failOn res store2 hok h
    by_cases hd : (rank_tasks tasks outcome debug).map toRankedItem = []
    · simp [save_ranking_results, hd] at h
    · simp only [save_ranking_results, if_neg hd, Except.ok.injEq] at h
      have hbounds : ∀ it ∈ (rank_tasks tasks outcome debug).map toRankedItem,
          ∀ q ∈ it.rank, 0 ≤ q ∧ q ≤ 1 := by
        intro it hit q hq
        rcases List.mem_map.1 hit with ⟨o, ho, rfl⟩
        have hb := rank_tasks_rank_bounds tasks outcome debug hok o ho
        have hqo : o.rank = q := by simpa [toRankedItem] using hq
        rw [← hqo]
        exact hb
      have hri := save_step_rankInv u failOn
        ((rank_tasks tasks outcome debug).map toRankedItem) t store 0 [] hinv hbounds
      rw [h] at hri
      exact hri

/-- C5 witness: the amended theorem applied to the empty store: a create
call preserves the invariant. -/
theorem C5_witness : RankInv (create_reminder [] "u" [] 0 "x").2 :=
  (C5_rank_invariant [] "u" 0 (fun r hr => absurd hr (List.not_mem_nil r))).1 [] "x"

end DynamicDo
